import Mathlib

/-!
Verification of the Takkerus Tak rules engine core
(`src/tak/state.rs`, `src/tak/ply.rs`, `src/tak/player.rs`).

Shallow embedding conventions:

* Rust `Vec<Piece>` stacks are modelled as `List Piece` with the list **head**
  corresponding to the **end** of the `Vec`; `Vec::push` becomes `cons` and
  `Vec::pop` takes the head.  Since the Rust code keeps the top of a board
  stack at the end of the `Vec`, the head of our list is the top of the stack.
* A Rust panic (out-of-range `Vec` indexing, `Option::unwrap` on `None`) is
  modelled by the `none` result of an `Option`-valued function.
* Machine integers are modelled as `Nat`/`Int`; the `as i8` casts in the slide
  loop are modelled by explicit wrapping to `[-128, 127]`, and the `u8`
  subtractions in the PTN reader by wrapping arithmetic modulo 256
  (release-profile Rust semantics).
* `tak/state_analysis.rs` is not part of the sources; the `StateAnalysis`
  operations, `Direction::to_offset` and the `EDGE`/`BOARD` bitmap tables are
  modelled from the spec where so marked.
-/

namespace Takkerus

/-- The two colors of `tak::Color`. -/
inductive Color where
  | White
  | Black
deriving DecidableEq

/-- `Color::flip`, used by callers of the core. -/
def Color.flip : Color → Color
  | .White => .Black
  | .Black => .White

/-- The three piece kinds of `tak::Piece`, each tagged with its owner. -/
inductive Piece where
  | Flatstone (c : Color)
  | StandingStone (c : Color)
  | Capstone (c : Color)
deriving DecidableEq

/-- `Piece::get_color`. -/
def Piece.get_color : Piece → Color
  | .Flatstone c => c
  | .StandingStone c => c
  | .Capstone c => c

/-- The four compass directions of `tak::Direction`. -/
inductive Direction where
  | North
  | East
  | South
  | West
deriving DecidableEq

/-- Modelled from the spec: `Direction::to_offset` (the implementation lives in
the missing `state_analysis.rs`/module files).  `'+'` north steps towards the
higher-numbered rows, `'>'` east towards the higher-lettered columns, as fixed
by the board rendering in `state.rs`. -/
def Direction.to_offset : Direction → Int × Int
  | .North => (0, 1)
  | .East => (1, 0)
  | .South => (0, -1)
  | .West => (-1, 0)

/-- The four rejection values of `tak::GameError`. -/
inductive GameError where
  | IllegalPlacement
  | InsufficientPieces
  | IllegalSlide
  | OutOfBounds
deriving DecidableEq

/-- The win results of `tak::Win`. -/
inductive Win where
  | None
  | Road (c : Color)
  | Flat (c : Color)
  | Draw
deriving DecidableEq

/-- A seat's reserve counts (`Seat` in `state.rs`, structurally the `Player`
record of `player.rs`: a color plus remaining flatstone/capstone reserves). -/
structure Seat where
  color : Color
  flatstone_count : Nat
  capstone_count : Nat
deriving DecidableEq

/-- `Seat::new`. -/
def Seat.new (color : Color) (flatstone_count capstone_count : Nat) : Seat :=
  ⟨color, flatstone_count, capstone_count⟩

/-! ### Bitmaps (modelled from the spec, §4.1)

`state_analysis.rs` is not among the sources.  Per the spec, a `Bitmap` is a
fixed-width integer with one bit per cell, row-major for a given board size;
we use `Nat` with cell `(x, y)` at bit `y * n + x`. -/

/-- Modelled from the spec: the single-cell bitmap for `(x, y)` on an `n`-wide
board. -/
def cellBit (n x y : Nat) : Nat := 2 ^ (y * n + x)

/-- Modelled from the spec: the precomputed per-size edge masks
(`EDGE[board_size][direction]`); the cells touching the given boundary. -/
def EDGE (n : Nat) (d : Direction) : Nat :=
  (List.range n).foldl (fun acc i =>
    acc |||
      (match d with
        | .North => cellBit n i (n - 1)
        | .South => cellBit n i 0
        | .West => cellBit n 0 i
        | .East => cellBit n (n - 1) i)) 0

/-- Modelled from the spec: the full-board mask (`BOARD[board_size]`). -/
def BOARD (n : Nat) : Nat := 2 ^ (n * n) - 1

/-- Clears from `m` every bit that is set in `b`. -/
def clearBits (m b : Nat) : Nat := m ^^^ (m &&& b)

/-- The connectivity tracker of `tak::StateAnalysis`.  The structure and its
operations are modelled from the spec (§3, §4.2) since `state_analysis.rs` is
not among the sources; the fields below carry exactly the data `check_win`
reads (road groups, per-color occupancy, flat-top counts) plus the
road-eligibility and flat-top bitmaps the incremental operations maintain. -/
structure StateAnalysis where
  n : Nat
  p1_road : Nat
  p2_road : Nat
  p1_flats : Nat
  p2_flats : Nat
  p1_pieces : Nat
  p2_pieces : Nat
  p1_road_groups : List Nat
  p2_road_groups : List Nat
deriving DecidableEq

/-- `StateAnalysis::new`. -/
def StateAnalysis.new (n : Nat) : StateAnalysis :=
  ⟨n, 0, 0, 0, 0, 0, 0, [], []⟩

/-- Modelled from the spec: number of set bits, used for the per-color
top-of-stack flatstone counts. -/
def popCount (m : Nat) : Nat := (Nat.digits 2 m).sum

/-- The `p1_flatstone_count` read by `check_win`. -/
def StateAnalysis.p1_flatstone_count (a : StateAnalysis) : Nat := popCount a.p1_flats

/-- The `p2_flatstone_count` read by `check_win`. -/
def StateAnalysis.p2_flatstone_count (a : StateAnalysis) : Nat := popCount a.p2_flats

/-- Modelled from the spec: `add_flatstone(color, x, y, depth)` marks the cell
as a road-eligible flat top for `color`. -/
def StateAnalysis.add_flatstone (a : StateAnalysis) (c : Color) (x y _depth : Nat) :
    StateAnalysis :=
  let b := cellBit a.n x y
  match c with
  | .White =>
      { a with p1_road := a.p1_road ||| b, p1_flats := a.p1_flats ||| b,
               p1_pieces := a.p1_pieces ||| b,
               p2_road := clearBits a.p2_road b, p2_flats := clearBits a.p2_flats b,
               p2_pieces := clearBits a.p2_pieces b }
  | .Black =>
      { a with p2_road := a.p2_road ||| b, p2_flats := a.p2_flats ||| b,
               p2_pieces := a.p2_pieces ||| b,
               p1_road := clearBits a.p1_road b, p1_flats := clearBits a.p1_flats b,
               p1_pieces := clearBits a.p1_pieces b }

/-- Modelled from the spec: `add_blocking_stone(piece, x, y)` marks the cell
as occupied; road-ineligible for a standing stone, road-eligible for a
capstone. -/
def StateAnalysis.add_blocking_stone (a : StateAnalysis) (p : Piece) (x y : Nat) :
    StateAnalysis :=
  let b := cellBit a.n x y
  let road := match p with
    | .Capstone _ => true
    | _ => false
  match p.get_color with
  | .White =>
      { a with p1_pieces := a.p1_pieces ||| b, p1_flats := clearBits a.p1_flats b,
               p1_road := if road then a.p1_road ||| b else clearBits a.p1_road b,
               p2_road := clearBits a.p2_road b, p2_flats := clearBits a.p2_flats b,
               p2_pieces := clearBits a.p2_pieces b }
  | .Black =>
      { a with p2_pieces := a.p2_pieces ||| b, p2_flats := clearBits a.p2_flats b,
               p2_road := if road then a.p2_road ||| b else clearBits a.p2_road b,
               p1_road := clearBits a.p1_road b, p1_flats := clearBits a.p1_flats b,
               p1_pieces := clearBits a.p1_pieces b }

/-- Modelled from the spec: `remove_flatstone(color, x, y, depth)`, the inverse
of `add_flatstone`, invoked when a stack's top piece is picked up. -/
def StateAnalysis.remove_flatstone (a : StateAnalysis) (c : Color) (x y _depth : Nat) :
    StateAnalysis :=
  let b := cellBit a.n x y
  match c with
  | .White =>
      { a with p1_road := clearBits a.p1_road b, p1_flats := clearBits a.p1_flats b,
               p1_pieces := clearBits a.p1_pieces b }
  | .Black =>
      { a with p2_road := clearBits a.p2_road b, p2_flats := clearBits a.p2_flats b,
               p2_pieces := clearBits a.p2_pieces b }

/-- Modelled from the spec: `remove_blocking_stone(piece, x, y)`. -/
def StateAnalysis.remove_blocking_stone (a : StateAnalysis) (p : Piece) (x y : Nat) :
    StateAnalysis :=
  let b := cellBit a.n x y
  match p.get_color with
  | .White =>
      { a with p1_road := clearBits a.p1_road b, p1_flats := clearBits a.p1_flats b,
               p1_pieces := clearBits a.p1_pieces b }
  | .Black =>
      { a with p2_road := clearBits a.p2_road b, p2_flats := clearBits a.p2_flats b,
               p2_pieces := clearBits a.p2_pieces b }

/-- Modelled from the spec: `reveal_flatstone(color, x, y)` restores the
road-eligibility of a newly exposed top of stack. -/
def StateAnalysis.reveal_flatstone (a : StateAnalysis) (c : Color) (x y : Nat) :
    StateAnalysis :=
  let b := cellBit a.n x y
  match c with
  | .White =>
      { a with p1_road := a.p1_road ||| b, p1_flats := a.p1_flats ||| b,
               p1_pieces := a.p1_pieces ||| b }
  | .Black =>
      { a with p2_road := a.p2_road ||| b, p2_flats := a.p2_flats ||| b,
               p2_pieces := a.p2_pieces ||| b }

/-- Modelled from the spec: `cover_flatstone(color, x, y)` makes the previous
top of stack road-ineligible once a piece is dropped onto it. -/
def StateAnalysis.cover_flatstone (a : StateAnalysis) (c : Color) (x y : Nat) :
    StateAnalysis :=
  let b := cellBit a.n x y
  match c with
  | .White =>
      { a with p1_road := clearBits a.p1_road b, p1_flats := clearBits a.p1_flats b,
               p1_pieces := clearBits a.p1_pieces b }
  | .Black =>
      { a with p2_road := clearBits a.p2_road b, p2_flats := clearBits a.p2_flats b,
               p2_pieces := clearBits a.p2_pieces b }

/-- Modelled from the spec: one step of edge-adjacency dilation of a cell set,
clipped to the board. -/
def spread (n bm : Nat) : Nat :=
  (bm ||| (bm <<< n) ||| (bm >>> n) |||
    ((clearBits bm (EDGE n .East)) <<< 1) |||
    ((clearBits bm (EDGE n .West)) >>> 1)) &&& BOARD n

/-- Modelled from the spec: grow a seed to its connected component inside
`region` (fuelled fixpoint iteration). -/
def grow (n : Nat) : Nat → Nat → Nat → Nat
  | 0, _, cur => cur
  | fuel + 1, region, cur =>
      let nxt := spread n cur &&& region
      if nxt = cur then cur else grow n fuel region nxt

/-- The lowest set bit of a bitmap (`0` for the empty bitmap). -/
def lowBit (bm : Nat) : Nat := bm &&& (bm ^^^ (bm - 1))

/-- Modelled from the spec: partition a road-eligibility bitmap into its
maximal edge-adjacency-connected components. -/
def roadGroupsFrom (n : Nat) : Nat → Nat → List Nat
  | 0, _ => []
  | fuel + 1, bm =>
      if bm = 0 then []
      else
        let g := grow n (n * n) bm (lowBit bm)
        g :: roadGroupsFrom n fuel (bm ^^^ (g &&& bm))

/-- Modelled from the spec: `calculate_road_groups` recomputes the full
per-color partition from the current road-eligibility bitmaps. -/
def StateAnalysis.calculate_road_groups (a : StateAnalysis) : StateAnalysis :=
  { a with p1_road_groups := roadGroupsFrom a.n (a.n * a.n + 1) a.p1_road,
           p2_road_groups := roadGroupsFrom a.n (a.n * a.n + 1) a.p2_road }

/-! ### The move representation (`ply.rs`) -/

/-- `tak::Ply`. -/
inductive Ply where
  | Place (x y : Nat) (piece : Piece)
  | Slide (x y : Nat) (direction : Direction) (drops : List Nat)
deriving DecidableEq

/-- The `fold(0, |acc, x| acc + x)` used on drop lists by both `ply.rs` and
`state.rs`, as an unbounded sum.  In the source the accumulator is a `usize`,
which wraps on overflow in release builds; `grabUsize` below models that
wrapping fold exactly, and the two agree whenever the mathematical sum is
below `2 ^ 64` (`grabUsize_eq_dropsSum`) — in particular under every
hypothesis that bounds the sum by a board dimension. -/
def dropsSum (ds : List Nat) : Nat := ds.foldl (· + ·) 0

/-- The grab count of the slide branch (`state.rs` line 105): the `usize`
fold of the drops, wrapping on overflow as in a release build on a 64-bit
target. -/
def grabUsize (ds : List Nat) : Nat :=
  ds.foldl (fun acc x => (acc + x) % 2 ^ 64) 0

/-- A `char` truncated to `u8` (the `c as u8` casts of `ply.rs`). -/
def charU8 (c : Char) : Nat := c.toNat % 256

/-- The value of a decimal digit character (`c as u8 - 48`). -/
def digitVal (c : Char) : Nat := charU8 c - 48

/-- The column-letter test of `ply.rs` (`is_alphabetic && is_lowercase`).  The
Rust predicates are full Unicode — the source also accepts non-ASCII lowercase
letters such as `'é'` as column letters, reading the column index from the
character's truncated low byte — and this definition is their ASCII fragment
`a`–`z`, which agrees with the source on every ASCII character.  Theorems
comparing `from_ptn` against a grammar therefore quantify over ASCII input
only. -/
def isLowerAlpha (c : Char) : Bool := 'a' ≤ c && c ≤ 'z'

/-- An ASCII character: the domain on which the modelled character tests
(`isLowerAlpha`, and the exact `Char.isDigit` and symbol comparisons)
coincide with the source's Unicode ones. -/
def isAscii (c : Char) : Bool := c.toNat < 128

/-- The direction-symbol match of `ply.rs`. -/
def dirOf (c : Char) : Option Direction :=
  if c = '+' then some .North
  else if c = '>' then some .East
  else if c = '-' then some .South
  else if c = '<' then some .West
  else none

/-- The trailing drop-digit loop of `Ply::from_ptn`: every remaining character
must be a decimal digit. -/
def parseDrops : List Char → Option (List Nat)
  | [] => some []
  | c :: rest =>
      if c.isDigit then (parseDrops rest).map fun ds => digitVal c :: ds
      else none

/-- The final assembly of `Ply::from_ptn` (lines 88–146): the direction step,
the drop digits and the closing validity checks. -/
def plyTail (color : Color) (newPiece : Option Piece) (grab : Option Nat)
    (x y : Nat) (rest : List Char) : Option Ply :=
  match rest with
  | [] =>
      -- direction absent: a missing piece letter defaults to a flatstone
      let np := match newPiece with
        | none => Piece.Flatstone color
        | some p => p
      if grab.isSome then none
      else some (.Place x y np)
  | c :: rest' =>
      match dirOf c with
      | none => none
      | some dir =>
          match parseDrops rest' with
          | none => none
          | some ds =>
              match newPiece with
              | some _ => none
              | none =>
                  if ds.isEmpty then
                    some (.Slide x y dir [grab.getD 1])
                  else
                    match grab with
                    | none => none
                    | some g =>
                        if g = dropsSum ds then some (.Slide x y dir ds) else none

/-- The coordinate steps of `Ply::from_ptn` (lines 70–86): a mandatory
lowercase column letter and row digit.  The row value `(c as u8 - 49)` is
modelled with wrapping `u8` subtraction. -/
def fromPtnAfterGrab (color : Color) (newPiece : Option Piece) (grab : Option Nat) :
    List Char → Option Ply
  | [] => none
  | c2 :: rest2 =>
      if isLowerAlpha c2 then
        match rest2 with
        | [] => none
        | c3 :: rest3 =>
            if c3.isDigit then
              plyTail color newPiece grab (charU8 c2 - 97) ((charU8 c3 + 256 - 49) % 256) rest3
            else none
      else none

/-- The optional leading grab digit of `Ply::from_ptn` (lines 60–68). -/
def fromPtnAfterPiece (color : Color) (newPiece : Option Piece) :
    List Char → Option Ply
  | [] => none
  | c1 :: rest1 =>
      if c1.isDigit then fromPtnAfterGrab color newPiece (some (digitVal c1)) rest1
      else fromPtnAfterGrab color newPiece none (c1 :: rest1)

/-- `Ply::from_ptn`, over the character sequence of the token. -/
def Ply.from_ptn (cs : List Char) (color : Color) : Option Ply :=
  match cs with
  | [] => none
  | c0 :: rest0 =>
      if c0 = 'S' then fromPtnAfterPiece color (some (.StandingStone color)) rest0
      else if c0 = 'C' then fromPtnAfterPiece color (some (.Capstone color)) rest0
      else if c0 = 'F' then fromPtnAfterPiece color (some (.Flatstone color)) rest0
      else fromPtnAfterPiece color none (c0 :: rest0)

/-! ### The token grammar

Two recognizers over the same character sequences: `grammarMatchesSpec` is the
grammar exactly as the spec's §4.5 words it, and `grammarMatches` is that
grammar amended to what the code accepts. -/

/-- Sum of the values of a list of drop-digit characters. -/
def dropsSumChars (ds : List Char) : Nat := dropsSum (ds.map digitVal)

/-- The token grammar exactly as the spec states it (§4.5): an optional
leading `'S'` or `'C'`; an optional leading grab digit `1`–`9`; a mandatory
lowercase column letter and row digit; an optional direction symbol, whose
absence makes the token a placement on which a leading grab digit is invalid;
after a direction, either no drop digits or a digit string whose sum must be
matched by a mandatory leading grab digit.  The spec attaches no condition
between the piece letter and a direction. -/
def grammarMatchesSpec (cs : List Char) : Bool :=
  let s1 : List Char :=
    match cs with
    | c :: rest => if c = 'S' ∨ c = 'C' then rest else cs
    | [] => []
  let p2 : Option Nat × List Char :=
    match s1 with
    | c :: rest => if c.isDigit ∧ c ≠ '0' then (some (digitVal c), rest) else (none, s1)
    | [] => (none, [])
  match p2.2 with
  | c2 :: c3 :: rest =>
      isLowerAlpha c2 && c3.isDigit &&
        (match rest with
          | [] => p2.1.isNone
          | c4 :: ds =>
              (dirOf c4).isSome &&
                (ds.isEmpty ||
                  (ds.all Char.isDigit &&
                    match p2.1 with
                    | some g => decide (g = dropsSumChars ds)
                    | none => false)))
  | _ => false

/-- The closing validity conditions of the amended grammar, matching
`plyTail`. -/
def grammarTail (hasPiece : Bool) (grab : Option Nat) (rest : List Char) : Bool :=
  match rest with
  | [] => grab.isNone
  | c :: ds =>
      (dirOf c).isSome && !hasPiece &&
        (ds.isEmpty ||
          (ds.all Char.isDigit &&
            match grab with
            | some g => decide (g = dropsSumChars ds)
            | none => false))

/-- The mandatory coordinate of the amended grammar. -/
def grammarAfterGrab (hasPiece : Bool) (grab : Option Nat) : List Char → Bool
  | [] => false
  | c2 :: rest2 =>
      isLowerAlpha c2 &&
        (match rest2 with
          | [] => false
          | c3 :: rest3 => c3.isDigit && grammarTail hasPiece grab rest3)

/-- The optional leading grab digit of the amended grammar. -/
def grammarAfterPiece (hasPiece : Bool) : List Char → Bool
  | [] => false
  | c1 :: rest1 =>
      if c1.isDigit then grammarAfterGrab hasPiece (some (digitVal c1)) rest1
      else grammarAfterGrab hasPiece none (c1 :: rest1)

/-- The spec's token grammar amended to what `Ply::from_ptn` accepts: the
leading piece letter may also be `'F'` (a flatstone); the leading grab digit
may be any decimal digit, `0` included; and a leading piece letter together
with a direction symbol makes the token invalid. -/
def grammarMatches (cs : List Char) : Bool :=
  match cs with
  | [] => false
  | c0 :: rest0 =>
      if c0 = 'S' ∨ c0 = 'C' ∨ c0 = 'F' then grammarAfterPiece true rest0
      else grammarAfterPiece false (c0 :: rest0)

/-! ### The game state (`state.rs`) -/

instance {ε α : Type} [DecidableEq ε] [DecidableEq α] : DecidableEq (Except ε α) :=
  fun a b =>
    match a, b with
    | .error e, .error f =>
        if h : e = f then isTrue (by rw [h])
        else isFalse (by intro hh; cases hh; exact h rfl)
    | .ok x, .ok y =>
        if h : x = y then isTrue (by rw [h])
        else isFalse (by intro hh; cases hh; exact h rfl)
    | .error _, .ok _ => isFalse (by intro hh; cases hh)
    | .ok _, .error _ => isFalse (by intro hh; cases hh)

/-- The board of `State`: a grid of per-cell piece stacks, indexed
`board[x][y]`, each stack's top at the head of its list. -/
abbrev Board : Type := List (List (List Piece))

/-- `tak::State`. -/
structure State where
  p1 : Seat
  p2 : Seat
  board : Board
  ply_count : Nat
  analysis : StateAnalysis
deriving DecidableEq

/-- The per-size starting reserves of `State::new`; `none` for the
`panic!("Illegal board size!")` arm. -/
def reserveCounts (board_size : Nat) : Option (Nat × Nat) :=
  match board_size with
  | 3 => some (10, 0)
  | 4 => some (15, 0)
  | 5 => some (21, 1)
  | 6 => some (30, 1)
  | 7 => some (40, 1)
  | 8 => some (50, 2)
  | _ => none

/-- `State::new`; `none` models the panic on an unsupported board size. -/
def State.new (board_size : Nat) : Option State :=
  (reserveCounts board_size).map fun fc =>
    { p1 := Seat.new .White fc.1 fc.2,
      p2 := Seat.new .Black fc.1 fc.2,
      board := List.replicate board_size (List.replicate board_size ([] : List Piece)),
      ply_count := 0,
      analysis := StateAnalysis.new board_size }

/-- The stack at `board[x][y]`; `none` when either index is out of range
(where the Rust indexing would panic). -/
def stackAt (b : Board) (x y : Nat) : Option (List Piece) :=
  match (b : List (List (List Piece))).get? x with
  | some col => col.get? y
  | none => none

/-- Writes the stack at `board[x][y]` (a no-op on an out-of-range index, which
every use below guards with `stackAt`). -/
def setStack (b : Board) (x y : Nat) (st : List Piece) : Board :=
  match (b : List (List (List Piece))).get? x with
  | some col => (b : List (List (List Piece))).set x (col.set y st)
  | none => b

/-- Wraps an integer into the `i8` range, modelling the `as i8` casts and the
wrapping `i8` additions of the slide loop. -/
def i8wrap (v : Int) : Int := (v + 128) % 256 - 128

/-- The grab loop of `execute_ply` (lines 111–130): pops `k` pieces off the
top of the source stack into the carried sequence, updating the analysis for
each pop; `none` models the panicking `pop().unwrap()` on an exhausted
stack. -/
def popLoop (x y : Nat) : Nat → List Piece → List Piece → StateAnalysis →
    Option (List Piece × List Piece × StateAnalysis)
  | 0, carried, st, a => some (carried, st, a)
  | k + 1, carried, st, a =>
      match st with
      | [] => none
      | piece :: rest =>
          let a1 := match piece with
            | .Flatstone c => a.remove_flatstone c x y rest.length
            | block => a.remove_blocking_stone block x y
          let a2 := match rest with
            | revealed :: _ => a1.reveal_flatstone revealed.get_color x y
            | [] => a1
          popLoop x y k (piece :: carried) rest a2

/-- The inner drop loop of `execute_ply` (lines 168–189): drops `k` pieces
from the carried sequence onto the target stack; `none` models the panicking
`stack.pop().unwrap()` on an exhausted carry. -/
def dropLoop (nx ny : Nat) : Nat → List Piece → List Piece → StateAnalysis →
    Option (List Piece × List Piece × StateAnalysis)
  | 0, carried, tgt, a => some (carried, tgt, a)
  | k + 1, carried, tgt, a =>
      let a1 := match tgt with
        | covered :: _ => a.cover_flatstone covered.get_color nx ny
        | [] => a
      match carried with
      | [] => none
      | piece :: rest =>
          let a2 := match piece with
            | .Flatstone c => a1.add_flatstone c nx ny tgt.length
            | block => a1.add_blocking_stone block nx ny
          dropLoop nx ny k rest (piece :: tgt) a2

/-- Writes the dropped target stack back to the board after `dropLoop`. -/
def slideDrop (nx ny d : Nat) (carried : List Piece) (b : Board)
    (tgt : List Piece) (a : StateAnalysis) :
    Option (Except GameError (List Piece × Board × StateAnalysis)) :=
  match dropLoop nx ny d carried tgt a with
  | none => none
  | some (carried', tgt', a') => some (.ok (carried', setStack b nx ny tgt', a'))

/-- One cell of the slide walk (lines 145–189): the capstone/standing-stone
checks — flattening a standing stone under a single carried capstone — then
the drops for this cell. -/
def slideCell (nx ny d : Nat) (carried : List Piece) (b : Board)
    (a : StateAnalysis) :
    Option (Except GameError (List Piece × Board × StateAnalysis)) :=
  match stackAt b nx ny with
  | none => none
  | some tgt =>
      match tgt with
      | [] => slideDrop nx ny d carried b tgt a
      | top :: restT =>
          match top with
          | .Capstone _ => some (.error .IllegalSlide)
          | .StandingStone c =>
              if carried.length = 1 then
                match carried.head? with
                | some (Piece.Capstone _) =>
                    let tgt' := Piece.Flatstone c :: restT
                    let a' := ((a.remove_blocking_stone (.StandingStone c) nx ny).add_flatstone
                      c nx ny (tgt'.length - 1))
                    slideDrop nx ny d carried b tgt' a'
                | _ => some (.error .IllegalSlide)
              else some (.error .IllegalSlide)
          | .Flatstone _ => slideDrop nx ny d carried b tgt a

/-- The slide walk of `execute_ply` (lines 132–190): steps cell by cell in the
direction's offset, bounds-checking with `i8` arithmetic, and processes each
cell's drops. -/
def slideLoop (n : Nat) (dx dy : Int) :
    List Nat → Int → Int → List Piece → Board → StateAnalysis →
    Option (Except GameError (Board × StateAnalysis))
  | [], _, _, _, b, a => some (.ok (b, a))
  | d :: ds, cx, cy, carried, b, a =>
      let nx := i8wrap (cx + dx)
      let ny := i8wrap (cy + dy)
      if nx < 0 ∨ nx ≥ i8wrap n ∨ ny < 0 ∨ ny ≥ i8wrap n then
        some (.error .OutOfBounds)
      else
        match slideCell nx.toNat ny.toNat d carried b a with
        | none => none
        | some (.error e) => some (.error e)
        | some (.ok (carried', b', a')) => slideLoop n dx dy ds nx ny carried' b' a'

/-- The slide branch of `execute_ply` after its entry validation: the grab
loop, the walk, and the final road-group recalculation. -/
def slideRest (next : State) (x y : Nat) (direction : Direction)
    (drops : List Nat) (st : List Piece) : Option (Except GameError State) :=
  let grab := dropsSum drops
  match popLoop x y grab [] st next.analysis with
  | none => none
  | some (carried, st', a) =>
      let b := setStack next.board x y st'
      let off := direction.to_offset
      match slideLoop next.board.length off.1 off.2 drops (i8wrap x) (i8wrap y) carried b a with
      | none => none
      | some (.error e) => some (.error e)
      | some (.ok (b', a')) =>
          some (.ok { next with board := b', analysis := a'.calculate_road_groups })

/-- The slide branch of `execute_ply` (lines 104–193), entry validation
included.  The `grab > board_size` test short-circuits before the source
indexing, exactly as the Rust `||` does. -/
def executeSlide (next : State) (x y : Nat) (direction : Direction)
    (drops : List Nat) : Option (Except GameError State) :=
  let grab := dropsSum drops
  if grab > next.board.length then some (.error .IllegalSlide)
  else
    match stackAt next.board x y with
    | none => none
    | some st =>
        if st.isEmpty then some (.error .IllegalSlide)
        else slideRest next x y direction drops st

/-- The placement branch of `execute_ply` (lines 64–103): the empty-cell
check, the reserve decrement keyed on the piece (flatstones and standing
stones share the flatstone reserve), the push and the analysis updates. -/
def executePlace (next : State) (x y : Nat) (piece : Piece) :
    Option (Except GameError State) :=
  match stackAt next.board x y with
  | none => none
  | some st =>
      if !st.isEmpty then some (.error .IllegalPlacement)
      else
        let afterReserve : Option State :=
          match piece with
          | .Flatstone c | .StandingStone c =>
              if c = .White then
                if next.p1.flatstone_count > 0 then
                  some { next with p1 :=
                    { next.p1 with flatstone_count := next.p1.flatstone_count - 1 } }
                else none
              else
                if next.p2.flatstone_count > 0 then
                  some { next with p2 :=
                    { next.p2 with flatstone_count := next.p2.flatstone_count - 1 } }
                else none
          | .Capstone c =>
              if c = .White then
                if next.p1.capstone_count > 0 then
                  some { next with p1 :=
                    { next.p1 with capstone_count := next.p1.capstone_count - 1 } }
                else none
              else
                if next.p2.capstone_count > 0 then
                  some { next with p2 :=
                    { next.p2 with capstone_count := next.p2.capstone_count - 1 } }
                else none
        match afterReserve with
        | none => some (.error .InsufficientPieces)
        | some s1 =>
            let b := setStack s1.board x y (piece :: st)
            let a1 := match piece with
              | .Flatstone c => s1.analysis.add_flatstone c x y st.length
              | block => s1.analysis.add_blocking_stone block x y
            let a2 := match piece with
              | .Flatstone _ | .Capstone _ => a1.calculate_road_groups
              | _ => a1
            some (.ok { s1 with board := b, analysis := a2 })

/-- `State::execute_ply`.  The result is `some (ok _)` or `some (error _)`
for a normal return of `Ok`/`Err`, and `none` where the Rust code panics. -/
def State.execute_ply (s : State) (ply : Ply) : Option (Except GameError State) :=
  let next := { s with ply_count := s.ply_count + 1 }
  match ply with
  | .Place x y piece => executePlace next x y piece
  | .Slide x y direction drops => executeSlide next x y direction drops

/-- `execute_ply` with its `&self` receiver made explicit: the first component
is the receiver's value when the call returns.  The Rust method clones `self`
and mutates only the clone, so the receiver is returned as it came in. -/
def executePlyMut (s : State) (ply : Ply) :
    State × Option (Except GameError State) :=
  (s, s.execute_ply ply)

/-- The `has_road` closure of `check_win` (lines 203–216). -/
def hasRoad (board_size : Nat) (groups : List Nat) : Bool :=
  groups.any fun g =>
    ((g &&& EDGE board_size .North != 0) && (g &&& EDGE board_size .South != 0)) ||
      ((g &&& EDGE board_size .West != 0) && (g &&& EDGE board_size .East != 0))

/-- `State::check_win` (lines 199–244). -/
def State.check_win (s : State) : Win :=
  let board_size := (s.board : List (List (List Piece))).length
  let p1_has_road := hasRoad board_size s.analysis.p1_road_groups
  let p2_has_road := hasRoad board_size s.analysis.p2_road_groups
  if p1_has_road && p2_has_road then
    if s.ply_count % 2 = 1 then Win.Road .White else Win.Road .Black
  else if p1_has_road then Win.Road .White
  else if p2_has_road then Win.Road .Black
  else if s.p1.flatstone_count + s.p1.capstone_count = 0 ∨
      s.p2.flatstone_count + s.p2.capstone_count = 0 ∨
      (s.analysis.p1_pieces ||| s.analysis.p2_pieces) = BOARD board_size then
    if s.analysis.p1_flatstone_count > s.analysis.p2_flatstone_count then
      Win.Flat .White
    else if s.analysis.p2_flatstone_count > s.analysis.p1_flatstone_count then
      Win.Flat .Black
    else Win.Draw
  else Win.None

/-- A sequence of successful executions: folds `execute_ply` over a ply list,
`none` as soon as any execution does not return `Ok`. -/
def execChain (s : State) : List Ply → Option State
  | [] => some s
  | p :: ps =>
      match s.execute_ply p with
      | some (.ok s') => execChain s' ps
      | _ => none

/-! ### The slide branch with release-exact grab arithmetic

`execute_ply` above computes the grab count with `dropsSum`, exact whenever
the drops sum below `2 ^ 64`.  The definitions here repeat the slide branch
with the wrapping `usize` fold `grabUsize`, which is what a release build
computes at line 105 for every drops list. -/

/-- `slideRest` with the release-exact wrapped grab count. -/
def slideRestWrap (next : State) (x y : Nat) (direction : Direction)
    (drops : List Nat) (st : List Piece) : Option (Except GameError State) :=
  let grab := grabUsize drops
  match popLoop x y grab [] st next.analysis with
  | none => none
  | some (carried, st', a) =>
      let b := setStack next.board x y st'
      let off := direction.to_offset
      match slideLoop next.board.length off.1 off.2 drops (i8wrap (x : Int))
          (i8wrap (y : Int)) carried b a with
      | none => none
      | some (.error e) => some (.error e)
      | some (.ok (b', a')) =>
          some (.ok { next with board := b', analysis := a'.calculate_road_groups })

/-- The slide branch of `execute_ply` (lines 104–193) with the release-exact
wrapped grab count, entry validation included. -/
def executeSlideWrap (next : State) (x y : Nat) (direction : Direction)
    (drops : List Nat) : Option (Except GameError State) :=
  let grab := grabUsize drops
  if grab > next.board.length then some (.error .IllegalSlide)
  else
    match stackAt next.board x y with
    | none => none
    | some st =>
        if st.isEmpty then some (.error .IllegalSlide)
        else slideRestWrap next x y direction drops st

/-- `State::execute_ply` with the wrapped (release-exact) grab arithmetic of
line 105; it agrees with `execute_ply` on every ply whose drops sum below
`2 ^ 64` (`execute_ply_wrap_eq`). -/
def State.execute_ply_wrap (s : State) (ply : Ply) :
    Option (Except GameError State) :=
  let next := { s with ply_count := s.ply_count + 1 }
  match ply with
  | .Place x y piece => executePlace next x y piece
  | .Slide x y direction drops => executeSlideWrap next x y direction drops

/-! ### Counting pieces by color -/

/-- The number of pieces of color `c` in one stack. -/
def stackCount (c : Color) : List Piece → Nat
  | [] => 0
  | p :: rest => (if p.get_color = c then 1 else 0) + stackCount c rest

/-- The number of pieces of color `c` in one board column. -/
def colCount (c : Color) : List (List Piece) → Nat
  | [] => 0
  | st :: rest => stackCount c st + colCount c rest

/-- The number of pieces of color `c` on the whole board. -/
def boardCount (c : Color) : Board → Nat
  | [] => 0
  | col :: rest => colCount c col + boardCount c rest

/-- A color's remaining reserves, reading the White reserves off seat `p1` and
the Black ones off seat `p2` as `execute_ply` does. -/
def resSum (c : Color) (s : State) : Nat :=
  match c with
  | .White => s.p1.flatstone_count + s.p1.capstone_count
  | .Black => s.p2.flatstone_count + s.p2.capstone_count

/-- Every column of the board has the board's width — true of every board the
Rust code ever builds. -/
def squareB (b : Board) : Prop := ∀ col ∈ b, col.length = b.length

instance (b : Board) : Decidable (squareB b) := List.decidableBAll _ b

/-- The seat holding a color's reserves, as `execute_ply` maps colors to
seats: White to `p1`, Black to `p2`. -/
def seatOf (s : State) (c : Color) : Seat :=
  match c with
  | .White => s.p1
  | .Black => s.p2

/-- A ply whose coordinates lie on the board and whose slide grab count does
not exceed the source stack's height — the condition under which `execute_ply`
cannot panic. -/
def plyInBounds (s : State) (p : Ply) : Prop :=
  match p with
  | .Place x y _ => x < s.board.length ∧ y < s.board.length
  | .Slide x y _ drops =>
      x < s.board.length ∧ y < s.board.length ∧
        ∀ st, stackAt s.board x y = some st → dropsSum drops ≤ st.length

/-- The freshly constructed 3×3 state (`State::new(3)`), written out. -/
def newState3 : State :=
  { p1 := Seat.new .White 10 0,
    p2 := Seat.new .Black 10 0,
    board := List.replicate 3 (List.replicate 3 ([] : List Piece)),
    ply_count := 0,
    analysis := StateAnalysis.new 3 }

/-- A 3×3 state with a single White flatstone at `a1`. -/
def exStack3 : State :=
  { newState3 with
      board := [[[Piece.Flatstone .White], [], []], [[], [], []], [[], [], []]],
      ply_count := 1 }

/-- A 3×3 board with a lone Black standing stone at `a2`. -/
def exFlattenBoard : Board :=
  [[[], [Piece.StandingStone .Black], []], [[], [], []], [[], [], []]]

/-- A 3×3 state whose analysis carries a full-board road group for both
colors, after one ply. -/
def exRoadState : State :=
  { newState3 with
      ply_count := 1,
      analysis := { StateAnalysis.new 3 with
        p1_road_groups := [BOARD 3], p2_road_groups := [BOARD 3] } }

/-! ### Helper lemmas -/

theorem foldl_add_shift (ds : List Nat) : ∀ a : Nat,
    ds.foldl (· + ·) a = a + ds.foldl (· + ·) 0 := by
  induction ds with
  | nil => intro a; simp
  | cons d ds ih =>
      intro a
      simp only [List.foldl]
      rw [ih (a + d), ih (0 + d)]
      omega

theorem dropsSum_cons (d : Nat) (ds : List Nat) :
    dropsSum (d :: ds) = d + dropsSum ds := by
  simp only [dropsSum, List.foldl]
  rw [foldl_add_shift ds (0 + d)]
  omega

theorem stackCount_eq_zero (c : Color) (st : List Piece) (h : st = []) :
    stackCount c st = 0 := by
  subst h; rfl

theorem colCount_set (c : Color) :
    ∀ (col : List (List Piece)) (y : Nat) (st st' : List Piece),
      col.get? y = some st →
      colCount c (col.set y st') + stackCount c st = colCount c col + stackCount c st' := by
  intro col
  induction col with
  | nil => intro y st st' h; simp [List.get?] at h
  | cons s rest ih =>
      intro y st st' h
      cases y with
      | zero =>
          simp only [List.get?] at h
          cases h
          simp only [List.set, colCount]
          omega
      | succ y =>
          simp only [List.get?] at h
          simp only [List.set, colCount]
          have := ih y st st' h
          omega

theorem boardCount_set (c : Color) :
    ∀ (b : Board) (x : Nat) (col col' : List (List Piece)),
      b.get? x = some col →
      boardCount c (b.set x col') + colCount c col = boardCount c b + colCount c col' := by
  intro b
  induction b with
  | nil => intro x col col' h; simp [List.get?] at h
  | cons c0 rest ih =>
      intro x col col' h
      cases x with
      | zero =>
          simp only [List.get?] at h
          cases h
          simp only [List.set, boardCount]
          omega
      | succ x =>
          simp only [List.get?] at h
          simp only [List.set, boardCount]
          have := ih x col col' h
          omega

theorem boardCount_setStack (c : Color) (b : Board) (x y : Nat)
    (st st' : List Piece) (h : stackAt b x y = some st) :
    boardCount c (setStack b x y st') + stackCount c st =
      boardCount c b + stackCount c st' := by
  unfold stackAt at h
  unfold setStack
  cases hb : b.get? x with
  | none => rw [hb] at h; exact Option.noConfusion h
  | some col =>
      rw [hb] at h
      have h2 := colCount_set c col y st st' h
      have h3 := boardCount_set c b x col (col.set y st') hb
      show boardCount c (b.set x (col.set y st')) + stackCount c st =
        boardCount c b + stackCount c st'
      omega

theorem setStack_length (b : Board) (x y : Nat) (st : List Piece) :
    (setStack b x y st).length = b.length := by
  unfold setStack
  cases hb : b.get? x with
  | none => rfl
  | some col => simp [List.length_set]

theorem squareB_setStack (b : Board) (x y : Nat) (st : List Piece)
    (h : squareB b) : squareB (setStack b x y st) := by
  intro col' hmem
  rw [setStack_length]
  unfold setStack at hmem
  cases hb : b.get? x with
  | none => rw [hb] at hmem; exact h col' hmem
  | some col =>
      rw [hb] at hmem
      rcases List.mem_or_eq_of_mem_set hmem with hin | heq
      · exact h col' hin
      · subst heq
        rw [List.length_set]
        exact h col (List.get?_mem hb)

theorem stackAt_isSome (b : Board) (x y : Nat) (hx : x < b.length)
    (hsq : squareB b) (hy : y < b.length) : ∃ st, stackAt b x y = some st := by
  unfold stackAt
  rcases List.get?_eq_get (l := b) (n := x) hx with hb
  rw [hb]
  have hcol : (b.get ⟨x, hx⟩).length = b.length := hsq _ (b.get_mem x hx)
  have hy' : y < (b.get ⟨x, hx⟩).length := by omega
  exact ⟨_, List.get?_eq_get hy'⟩

theorem stackAt_some_get? (b : Board) (x y : Nat) (st : List Piece)
    (h : stackAt b x y = some st) :
    ∃ col, b.get? x = some col ∧ col.get? y = some st := by
  unfold stackAt at h
  cases hb : b.get? x with
  | none => rw [hb] at h; cases h
  | some col => rw [hb] at h; exact ⟨col, rfl, h⟩

/-! ### Loop lemmas -/

theorem popLoop_spec (x y : Nat) :
    ∀ (k : Nat) (carried st : List Piece) (a : StateAnalysis)
      (carried' st' : List Piece) (a' : StateAnalysis),
      popLoop x y k carried st a = some (carried', st', a') →
      (∀ c, stackCount c carried' + stackCount c st' =
        stackCount c carried + stackCount c st) ∧
      carried'.length = carried.length + k ∧ st.length = st'.length + k := by
  intro k
  induction k with
  | zero =>
      intro carried st a carried' st' a' h
      simp only [popLoop] at h
      cases h
      exact ⟨fun c => rfl, by omega, by omega⟩
  | succ k ih =>
      intro carried st a carried' st' a' h
      cases st with
      | nil => simp [popLoop] at h
      | cons piece rest =>
          simp only [popLoop] at h
          have := ih (piece :: carried) rest _ carried' st' a' h
          refine ⟨fun c => ?_, ?_, ?_⟩
          · have h1 := this.1 c
            simp only [stackCount] at h1 ⊢
            omega
          · have := this.2.1
            simp only [List.length_cons] at this
            omega
          · have := this.2.2
            simp only [List.length_cons]
            omega

theorem popLoop_total (x y : Nat) :
    ∀ (k : Nat) (carried st : List Piece) (a : StateAnalysis),
      k ≤ st.length → ∃ r, popLoop x y k carried st a = some r := by
  intro k
  induction k with
  | zero => intro carried st a _; exact ⟨_, rfl⟩
  | succ k ih =>
      intro carried st a h
      cases st with
      | nil => simp at h
      | cons piece rest =>
          simp only [popLoop]
          exact ih (piece :: carried) rest _ (by simp at h; omega)

theorem popLoop_none (x y : Nat) :
    ∀ (k : Nat) (carried st : List Piece) (a : StateAnalysis),
      st.length < k → popLoop x y k carried st a = none := by
  intro k
  induction k with
  | zero => intro carried st a h; omega
  | succ k ih =>
      intro carried st a h
      cases st with
      | nil => rfl
      | cons piece rest =>
          simp only [popLoop]
          exact ih (piece :: carried) rest _ (by simp at h; omega)

theorem dropLoop_spec (nx ny : Nat) :
    ∀ (k : Nat) (carried tgt : List Piece) (a : StateAnalysis)
      (carried' tgt' : List Piece) (a' : StateAnalysis),
      dropLoop nx ny k carried tgt a = some (carried', tgt', a') →
      (∀ c, stackCount c carried' + stackCount c tgt' =
        stackCount c carried + stackCount c tgt) ∧
      carried.length = carried'.length + k ∧ tgt'.length = tgt.length + k := by
  intro k
  induction k with
  | zero =>
      intro carried tgt a carried' tgt' a' h
      simp only [dropLoop] at h
      cases h
      exact ⟨fun c => rfl, by omega, by omega⟩
  | succ k ih =>
      intro carried tgt a carried' tgt' a' h
      simp only [dropLoop] at h
      cases carried with
      | nil => simp at h
      | cons piece rest =>
          have := ih rest (piece :: tgt) _ carried' tgt' a' h
          refine ⟨fun c => ?_, ?_, ?_⟩
          · have h1 := this.1 c
            simp only [stackCount] at h1 ⊢
            omega
          · have := this.2.1
            simp only [List.length_cons]
            omega
          · have := this.2.2
            simp only [List.length_cons] at this
            omega

theorem dropLoop_total (nx ny : Nat) :
    ∀ (k : Nat) (carried tgt : List Piece) (a : StateAnalysis),
      k ≤ carried.length → ∃ r, dropLoop nx ny k carried tgt a = some r := by
  intro k
  induction k with
  | zero => intro carried tgt a _; exact ⟨_, rfl⟩
  | succ k ih =>
      intro carried tgt a h
      cases carried with
      | nil => simp at h
      | cons piece rest =>
          simp only [dropLoop]
          exact ih rest (piece :: tgt) _ (by simp at h; omega)

theorem i8wrap_bounds (v : Int) : -128 ≤ i8wrap v ∧ i8wrap v ≤ 127 := by
  unfold i8wrap
  have h1 : 0 ≤ (v + 128) % 256 := Int.emod_nonneg _ (by norm_num)
  have h2 : (v + 128) % 256 < 256 := Int.emod_lt_of_pos _ (by norm_num)
  omega

theorem i8wrap_eq_self (v : Int) (h1 : -128 ≤ v) (h2 : v ≤ 127) : i8wrap v = v := by
  unfold i8wrap
  have : (v + 128) % 256 = v + 128 := Int.emod_eq_of_lt (by omega) (by omega)
  omega

theorem i8wrap_nat_le (n : Nat) : i8wrap (n : Int) ≤ (n : Int) := by
  by_cases h : (n : Int) ≤ 127
  · rw [i8wrap_eq_self _ (by omega) h]
  · have := (i8wrap_bounds (n : Int)).2
    omega

theorem toNat_lt_of_i8 (v : Int) (n : Nat) (h0 : 0 ≤ v) (h1 : v < i8wrap (n : Int)) :
    v.toNat < n := by
  have := i8wrap_nat_le n
  omega

theorem slideDrop_ok (nx ny d : Nat) (carried : List Piece) (b : Board)
    (tgt tgt0 : List Piece) (a : StateAnalysis) (carried' : List Piece)
    (b' : Board) (a' : StateAnalysis)
    (htgt : stackAt b nx ny = some tgt0)
    (hcnt : ∀ c, stackCount c tgt = stackCount c tgt0)
    (h : slideDrop nx ny d carried b tgt a = some (.ok (carried', b', a'))) :
    (∀ c, boardCount c b' + stackCount c carried' =
      boardCount c b + stackCount c carried) ∧
    carried.length = carried'.length + d ∧
    b'.length = b.length ∧ (squareB b → squareB b') := by
  unfold slideDrop at h
  cases hd : dropLoop nx ny d carried tgt a with
  | none => rw [hd] at h; exact Option.noConfusion h
  | some trip =>
      obtain ⟨carried2, tgt2, a2⟩ := trip
      rw [hd] at h
      simp only [Option.some.injEq, Except.ok.injEq, Prod.mk.injEq] at h
      obtain ⟨hc, hb, ha⟩ := h
      subst hc hb ha
      have hspec := dropLoop_spec nx ny d carried tgt a carried2 tgt2 a2 hd
      refine ⟨fun c => ?_, hspec.2.1, setStack_length b nx ny tgt2, ?_⟩
      · have h1 := hspec.1 c
        have h2 := boardCount_setStack c b nx ny tgt0 tgt2 htgt
        have h3 := hcnt c
        omega
      · exact fun hs => squareB_setStack b nx ny tgt2 hs

theorem slideCell_ok (nx ny d : Nat) (carried : List Piece) (b : Board)
    (a : StateAnalysis) (carried' : List Piece) (b' : Board) (a' : StateAnalysis)
    (h : slideCell nx ny d carried b a = some (.ok (carried', b', a'))) :
    (∀ c, boardCount c b' + stackCount c carried' =
      boardCount c b + stackCount c carried) ∧
    carried.length = carried'.length + d ∧
    b'.length = b.length ∧ (squareB b → squareB b') := by
  unfold slideCell at h
  cases htgt : stackAt b nx ny with
  | none => rw [htgt] at h; exact Option.noConfusion h
  | some tgt =>
      cases tgt with
      | nil =>
          rw [htgt] at h
          dsimp only at h
          exact slideDrop_ok nx ny d carried b [] [] a carried' b' a' htgt (fun c => rfl) h
      | cons top restT =>
          cases top with
          | Capstone c0 => rw [htgt] at h; dsimp only at h; simp at h
          | Flatstone c0 =>
              rw [htgt] at h
              dsimp only at h
              exact slideDrop_ok nx ny d carried b _ _ a carried' b' a' htgt (fun c => rfl) h
          | StandingStone c0 =>
              rw [htgt] at h
              dsimp only at h
              by_cases hlen : carried.length = 1
              · rw [if_pos hlen] at h
                cases hhd : carried.head? with
                | none => rw [hhd] at h; dsimp only at h; simp at h
                | some p =>
                    rw [hhd] at h
                    cases p with
                    | Capstone c1 =>
                        dsimp only at h
                        refine slideDrop_ok nx ny d carried b _ _ _ carried' b' a' htgt
                          (fun c => ?_) h
                        simp [stackCount, Piece.get_color]
                    | Flatstone c1 => dsimp only at h; simp at h
                    | StandingStone c1 => dsimp only at h; simp at h
              · rw [if_neg hlen] at h
                simp at h

theorem slideCell_total (nx ny d : Nat) (carried : List Piece) (b : Board)
    (a : StateAnalysis) (tgt : List Piece) (htgt : stackAt b nx ny = some tgt)
    (hd : d ≤ carried.length) : ∃ r, slideCell nx ny d carried b a = some r := by
  have hdrop : ∀ (tgt' : List Piece) (a' : StateAnalysis),
      ∃ r, slideDrop nx ny d carried b tgt' a' = some r := by
    intro tgt' a'
    unfold slideDrop
    obtain ⟨r, hr⟩ := dropLoop_total nx ny d carried tgt' a' hd
    obtain ⟨c2, t2, a2⟩ := r
    rw [hr]
    exact ⟨_, rfl⟩
  unfold slideCell
  rw [htgt]
  cases tgt with
  | nil => exact hdrop [] a
  | cons top restT =>
      cases top with
      | Capstone c0 => exact ⟨_, rfl⟩
      | Flatstone c0 => exact hdrop (Piece.Flatstone c0 :: restT) a
      | StandingStone c0 =>
          dsimp only
          by_cases hlen : carried.length = 1
          · rw [if_pos hlen]
            cases hhd : carried.head? with
            | none => exact ⟨_, rfl⟩
            | some p =>
                cases p with
                | Capstone c1 => exact hdrop (Piece.Flatstone c0 :: restT) _
                | Flatstone c1 => exact ⟨_, rfl⟩
                | StandingStone c1 => exact ⟨_, rfl⟩
          · rw [if_neg hlen]
            exact ⟨_, rfl⟩

theorem slideLoop_ok (n : Nat) (dx dy : Int) :
    ∀ (ds : List Nat) (cx cy : Int) (carried : List Piece) (b : Board)
      (a : StateAnalysis) (b' : Board) (a' : StateAnalysis),
      carried.length = dropsSum ds →
      slideLoop n dx dy ds cx cy carried b a = some (.ok (b', a')) →
      (∀ c, boardCount c b' = boardCount c b + stackCount c carried) ∧
      b'.length = b.length ∧ (squareB b → squareB b') := by
  intro ds
  induction ds with
  | nil =>
      intro cx cy carried b a b' a' hlen h
      simp only [slideLoop, Option.some.injEq, Except.ok.injEq, Prod.mk.injEq] at h
      obtain ⟨hb, ha⟩ := h
      subst hb
      have hc : carried = [] := List.length_eq_zero.mp (by simpa [dropsSum] using hlen)
      subst hc
      exact ⟨fun c => by simp [stackCount], rfl, fun hs => hs⟩
  | cons d ds ih =>
      intro cx cy carried b a b' a' hlen h
      simp only [slideLoop] at h
      split at h
      · simp at h
      · cases hsc : slideCell (i8wrap (cx + dx)).toNat (i8wrap (cy + dy)).toNat d carried b a with
        | none => rw [hsc] at h; exact Option.noConfusion h
        | some r =>
            cases r with
            | error e => rw [hsc] at h; simp at h
            | ok trip =>
                obtain ⟨carried2, b2, a2⟩ := trip
                rw [hsc] at h
                have hcell := slideCell_ok _ _ _ _ _ _ _ _ _ hsc
                rw [dropsSum_cons] at hlen
                have hlen2 : carried2.length = dropsSum ds := by
                  have := hcell.2.1
                  omega
                have hrec := ih _ _ carried2 b2 a2 b' a' hlen2 h
                refine ⟨fun c => ?_, ?_, fun hs => hrec.2.2 (hcell.2.2.2 hs)⟩
                · have h1 := hcell.1 c
                  have h2 := hrec.1 c
                  omega
                · rw [hrec.2.1, hcell.2.2.1]

theorem slideLoop_total (dx dy : Int) :
    ∀ (ds : List Nat) (cx cy : Int) (carried : List Piece) (b : Board)
      (a : StateAnalysis) (n : Nat),
      n = b.length → squareB b → carried.length = dropsSum ds →
      ∃ r, slideLoop n dx dy ds cx cy carried b a = some r := by
  intro ds
  induction ds with
  | nil => intro cx cy carried b a n _ _ _; exact ⟨_, rfl⟩
  | cons d ds ih =>
      intro cx cy carried b a n hn hsq hlen
      simp only [slideLoop]
      by_cases hbound : i8wrap (cx + dx) < 0 ∨ i8wrap (cx + dx) ≥ i8wrap (n : Int) ∨
          i8wrap (cy + dy) < 0 ∨ i8wrap (cy + dy) ≥ i8wrap (n : Int)
      · rw [if_pos hbound]
        exact ⟨_, rfl⟩
      · rw [if_neg hbound]
        push_neg at hbound
        obtain ⟨hx0, hx1, hy0, hy1⟩ := hbound
        have hxlt : (i8wrap (cx + dx)).toNat < n := toNat_lt_of_i8 _ n hx0 hx1
        have hylt : (i8wrap (cy + dy)).toNat < n := toNat_lt_of_i8 _ n hy0 hy1
        obtain ⟨tgt, htgt⟩ := stackAt_isSome b _ _ (hn ▸ hxlt) hsq (hn ▸ hylt)
        rw [dropsSum_cons] at hlen
        obtain ⟨r, hr⟩ := slideCell_total _ _ d carried b a tgt htgt (by omega)
        rw [hr]
        cases r with
        | error e => exact ⟨_, rfl⟩
        | ok trip =>
            obtain ⟨carried2, b2, a2⟩ := trip
            have hcell := slideCell_ok _ _ _ _ _ _ _ _ _ hr
            refine ih _ _ carried2 b2 a2 n ?_ (hcell.2.2.2 hsq) ?_
            · rw [hcell.2.2.1, hn]
            · have := hcell.2.1
              omega

theorem conserve_helper (c : Color) (b : Board) (x y : Nat) (st : List Piece)
    (p : Piece) (hst : stackAt b x y = some st) :
    boardCount c (setStack b x y (p :: st)) =
      boardCount c b + (if p.get_color = c then 1 else 0) := by
  have := boardCount_setStack c b x y st (p :: st) hst
  simp only [stackCount] at this
  omega

theorem execute_place_conserve (s : State) (x y : Nat) (piece : Piece) (s' : State)
    (h : s.execute_ply (.Place x y piece) = some (.ok s')) :
    ∀ c, boardCount c s'.board + resSum c s' = boardCount c s.board + resSum c s := by
  unfold State.execute_ply executePlace at h
  dsimp only at h
  cases hst : stackAt s.board x y with
  | none => rw [hst] at h; exact Option.noConfusion h
  | some st =>
      rw [hst] at h
      dsimp only at h
      split at h
      · simp at h
      · split at h
        · simp at h
        · rename_i s1 hres
          simp only [Option.some.injEq, Except.ok.injEq] at h
          subst h
          cases piece with
          | Flatstone pc =>
              dsimp only at hres
              cases pc with
              | White =>
                  rw [if_pos rfl] at hres
                  split at hres
                  · rename_i hcnt
                    simp only [Option.some.injEq] at hres
                    subst hres
                    intro c
                    rw [conserve_helper c s.board x y st _ hst]
                    cases c <;> (simp [resSum, Piece.get_color]; try omega)
                  · simp at hres
              | Black =>
                  rw [if_neg (by decide : ¬(Color.Black = Color.White))] at hres
                  split at hres
                  · rename_i hcnt
                    simp only [Option.some.injEq] at hres
                    subst hres
                    intro c
                    rw [conserve_helper c s.board x y st _ hst]
                    cases c <;> (simp [resSum, Piece.get_color]; try omega)
                  · simp at hres
          | StandingStone pc =>
              dsimp only at hres
              cases pc with
              | White =>
                  rw [if_pos rfl] at hres
                  split at hres
                  · rename_i hcnt
                    simp only [Option.some.injEq] at hres
                    subst hres
                    intro c
                    rw [conserve_helper c s.board x y st _ hst]
                    cases c <;> (simp [resSum, Piece.get_color]; try omega)
                  · simp at hres
              | Black =>
                  rw [if_neg (by decide : ¬(Color.Black = Color.White))] at hres
                  split at hres
                  · rename_i hcnt
                    simp only [Option.some.injEq] at hres
                    subst hres
                    intro c
                    rw [conserve_helper c s.board x y st _ hst]
                    cases c <;> (simp [resSum, Piece.get_color]; try omega)
                  · simp at hres
          | Capstone pc =>
              dsimp only at hres
              cases pc with
              | White =>
                  rw [if_pos rfl] at hres
                  split at hres
                  · rename_i hcnt
                    simp only [Option.some.injEq] at hres
                    subst hres
                    intro c
                    rw [conserve_helper c s.board x y st _ hst]
                    cases c <;> (simp [resSum, Piece.get_color]; try omega)
                  · simp at hres
              | Black =>
                  rw [if_neg (by decide : ¬(Color.Black = Color.White))] at hres
                  split at hres
                  · rename_i hcnt
                    simp only [Option.some.injEq] at hres
                    subst hres
                    intro c
                    rw [conserve_helper c s.board x y st _ hst]
                    cases c <;> (simp [resSum, Piece.get_color]; try omega)
                  · simp at hres

theorem execute_slide_conserve (s : State) (x y : Nat) (direction : Direction)
    (drops : List Nat) (s' : State)
    (h : s.execute_ply (.Slide x y direction drops) = some (.ok s')) :
    ∀ c, boardCount c s'.board + resSum c s' = boardCount c s.board + resSum c s := by
  unfold State.execute_ply executeSlide at h
  dsimp only at h
  split at h
  · simp at h
  · cases hst : stackAt s.board x y with
    | none => rw [hst] at h; exact Option.noConfusion h
    | some st =>
        rw [hst] at h
        dsimp only at h
        split at h
        · simp at h
        · unfold slideRest at h
          dsimp only at h
          cases hpop : popLoop x y (dropsSum drops) [] st s.analysis with
          | none => rw [hpop] at h; exact Option.noConfusion h
          | some trip =>
              obtain ⟨carried, st1, a1⟩ := trip
              rw [hpop] at h
              dsimp only at h
              cases hloop : slideLoop s.board.length direction.to_offset.1
                  direction.to_offset.2 drops (i8wrap (x : Int)) (i8wrap (y : Int))
                  carried (setStack s.board x y st1) a1 with
              | none => rw [hloop] at h; exact Option.noConfusion h
              | some r =>
                  cases r with
                  | error e => rw [hloop] at h; simp at h
                  | ok pair =>
                      obtain ⟨b', a2⟩ := pair
                      rw [hloop] at h
                      simp only [Option.some.injEq, Except.ok.injEq] at h
                      subst h
                      have hpspec := popLoop_spec x y (dropsSum drops) [] st s.analysis
                        carried st1 a1 hpop
                      have hlen : carried.length = dropsSum drops := by
                        have := hpspec.2.1
                        simpa using this
                      have hlspec := slideLoop_ok s.board.length direction.to_offset.1
                        direction.to_offset.2 drops _ _ carried _ a1 b' a2 hlen hloop
                      intro c
                      have h1 := hpspec.1 c
                      have h2 := boardCount_setStack c s.board x y st st1 hst
                      have h3 := hlspec.1 c
                      simp only [stackCount] at h1
                      cases c <;> dsimp only [resSum] <;> omega

theorem execute_ply_conserve (s : State) (p : Ply) (s' : State)
    (h : s.execute_ply p = some (.ok s')) :
    ∀ c, boardCount c s'.board + resSum c s' = boardCount c s.board + resSum c s := by
  cases p with
  | Place x y piece => exact execute_place_conserve s x y piece s' h
  | Slide x y direction drops => exact execute_slide_conserve s x y direction drops s' h

theorem execChain_conserve (ps : List Ply) :
    ∀ (s s' : State), execChain s ps = some s' →
      ∀ c, boardCount c s'.board + resSum c s' = boardCount c s.board + resSum c s := by
  induction ps with
  | nil =>
      intro s s' h c
      simp only [execChain, Option.some.injEq] at h
      subst h
      rfl
  | cons p ps ih =>
      intro s s' h c
      simp only [execChain] at h
      cases he : s.execute_ply p with
      | none => rw [he] at h; exact Option.noConfusion h
      | some r =>
          cases r with
          | error e => rw [he] at h; simp at h
          | ok s1 =>
              rw [he] at h
              dsimp only at h
              have h1 := execute_ply_conserve s p s1 he c
              have h2 := ih s1 s' h c
              omega

theorem colCount_replicate (c : Color) (m : Nat) :
    colCount c (List.replicate m ([] : List Piece)) = 0 := by
  induction m with
  | zero => rfl
  | succ m ih => simp [List.replicate_succ, colCount, stackCount, ih]

theorem boardCount_replicate (c : Color) (n m : Nat) :
    boardCount c (List.replicate n (List.replicate m ([] : List Piece))) = 0 := by
  induction n with
  | zero => rfl
  | succ n ih => simp [List.replicate_succ, boardCount, colCount_replicate, ih]

theorem executePlace_total (next : State) (x y : Nat) (piece : Piece)
    (st : List Piece) (hst : stackAt next.board x y = some st) :
    ∃ r, executePlace next x y piece = some r := by
  unfold executePlace
  rw [hst]
  dsimp only
  split
  · exact ⟨_, rfl⟩
  · split
    · exact ⟨_, rfl⟩
    · exact ⟨_, rfl⟩

/-- Claim C1 (amended): for every state with a square board and every ply
whose coordinates lie on the board — and, for a slide, whose grab count does
not exceed the source stack's height — `execute_ply` returns a value, an `Ok`
state or one of the four `GameError`s; outside those bounds the Rust code can
panic instead (see the counterexample). -/
theorem execute_ply_total (s : State) (p : Ply) (hsq : squareB s.board)
    (hp : plyInBounds s p) : ∃ r, s.execute_ply p = some r := by
  cases p with
  | Place x y piece =>
      obtain ⟨hx, hy⟩ := hp
      obtain ⟨st, hst⟩ := stackAt_isSome s.board x y hx hsq hy
      unfold State.execute_ply
      dsimp only
      exact executePlace_total _ x y piece st hst
  | Slide x y direction drops =>
      obtain ⟨hx, hy, hgrab⟩ := hp
      unfold State.execute_ply executeSlide
      dsimp only
      by_cases hgt : dropsSum drops > s.board.length
      · rw [if_pos hgt]
        exact ⟨_, rfl⟩
      · rw [if_neg hgt]
        obtain ⟨st, hst⟩ := stackAt_isSome s.board x y hx hsq hy
        rw [hst]
        dsimp only
        cases hemp : st.isEmpty with
        | true => exact ⟨_, rfl⟩
        | false =>
            rw [if_neg (by decide : ¬(false = true))]
            unfold slideRest
            dsimp only
            have hle : dropsSum drops ≤ st.length := hgrab st hst
            obtain ⟨trip, hpop⟩ := popLoop_total x y (dropsSum drops) [] st s.analysis hle
            obtain ⟨carried, st1, a1⟩ := trip
            rw [hpop]
            dsimp only
            have hlen : carried.length = dropsSum drops := by
              have := (popLoop_spec x y (dropsSum drops) [] st s.analysis
                carried st1 a1 hpop).2.1
              simpa using this
            have hsq2 : squareB (setStack s.board x y st1) :=
              squareB_setStack s.board x y st1 hsq
            obtain ⟨r, hloop⟩ := slideLoop_total direction.to_offset.1
              direction.to_offset.2 drops (i8wrap (x : Int)) (i8wrap (y : Int))
              carried (setStack s.board x y st1) a1 s.board.length
              (by rw [setStack_length]) hsq2 hlen
            rw [hloop]
            cases r with
            | error e => exact ⟨_, rfl⟩
            | ok pair =>
                obtain ⟨b', a2⟩ := pair
                exact ⟨_, rfl⟩

/-- Claim C1, counterexample: a slide grabbing two pieces from a height-one
stack (grab within board size) and a placement at an off-board coordinate
both make `execute_ply` panic — modelled as `none` — rather than return a
`GameError`. -/
theorem execute_ply_panics :
    exStack3.execute_ply (Ply.Slide 0 0 Direction.North [2]) = none ∧
    exStack3.execute_ply (Ply.Place 5 5 (Piece.Flatstone Color.White)) = none := by
  exact ⟨rfl, rfl⟩

/-- Witness for `execute_ply_total` at a concrete in-bounds placement. -/
theorem execute_ply_total_witness :
    ∃ r, exStack3.execute_ply (Ply.Place 1 1 (Piece.Capstone Color.Black)) = some r :=
  execute_ply_total exStack3 (Ply.Place 1 1 (Piece.Capstone Color.Black))
    (by decide) (by exact (by decide : (1 : Nat) < 3 ∧ (1 : Nat) < 3))

/-- Claim C2: along every sequence of successful executions from a fresh
state, each color's on-board piece count plus its remaining flatstone and
capstone reserves equals the board size's starting allocation. -/
theorem reserve_conservation (n f cc : Nat) (s0 : State) (plies : List Ply)
    (s1 : State) (hn : reserveCounts n = some (f, cc))
    (h0 : State.new n = some s0) (hc : execChain s0 plies = some s1) :
    boardCount .White s1.board + s1.p1.flatstone_count + s1.p1.capstone_count
        = f + cc ∧
    boardCount .Black s1.board + s1.p2.flatstone_count + s1.p2.capstone_count
        = f + cc := by
  unfold State.new at h0
  rw [hn] at h0
  dsimp only [Option.map] at h0
  simp only [Option.some.injEq] at h0
  subst h0
  have hW := execChain_conserve plies _ s1 hc Color.White
  have hB := execChain_conserve plies _ s1 hc Color.Black
  dsimp only [resSum, Seat.new] at hW hB
  rw [boardCount_replicate] at hW hB
  constructor <;> omega

/-- Witness for `reserve_conservation` on the empty execution sequence from
`State::new(3)`. -/
theorem reserve_conservation_witness :
    boardCount Color.White newState3.board + newState3.p1.flatstone_count +
        newState3.p1.capstone_count = 10 + 0 ∧
    boardCount Color.Black newState3.board + newState3.p2.flatstone_count +
        newState3.p2.capstone_count = 10 + 0 :=
  reserve_conservation 3 10 0 newState3 [] newState3 rfl rfl rfl

/-- Claim C3: executing a ply never changes the source state — board,
reserves, ply counter and analysis — and a rejection carries only the error
value.  The `&self` receiver is made explicit by `executePlyMut`, whose first
component is the receiver after the call. -/
theorem execute_ply_frame (s : State) (p : Ply) :
    (executePlyMut s p).1.board = s.board ∧
    (executePlyMut s p).1.p1 = s.p1 ∧ (executePlyMut s p).1.p2 = s.p2 ∧
    (executePlyMut s p).1.ply_count = s.ply_count ∧
    (executePlyMut s p).1.analysis = s.analysis ∧
    (executePlyMut s p).2 = s.execute_ply p :=
  ⟨rfl, rfl, rfl, rfl, rfl, rfl⟩

/-- Claim C4: when the slide walk reaches a cell topped by a standing stone,
it succeeds exactly when the carried sequence is one single capstone — the
standing stone then becomes a flatstone of its own color beneath the dropped
capstone — and fails with `IllegalSlide` for any other carry. -/
theorem slide_flatten_standing (nx ny d : Nat) (carried : List Piece)
    (b : Board) (a : StateAnalysis) (col : Color) (restT : List Piece)
    (htop : stackAt b nx ny = some (Piece.StandingStone col :: restT)) :
    (∀ ccap, carried = [Piece.Capstone ccap] → d = 1 →
      ∃ a', slideCell nx ny d carried b a =
        some (.ok ([],
          setStack b nx ny (Piece.Capstone ccap :: Piece.Flatstone col :: restT),
          a'))) ∧
    ((carried.length ≠ 1 ∨ ∀ ccap, carried ≠ [Piece.Capstone ccap]) →
      slideCell nx ny d carried b a = some (.error .IllegalSlide)) := by
  constructor
  · intro ccap hcar hd
    subst hcar hd
    unfold slideCell
    rw [htop]
    exact ⟨_, rfl⟩
  · intro hbad
    unfold slideCell
    rw [htop]
    dsimp only
    by_cases hlen : carried.length = 1
    · rw [if_pos hlen]
      cases carried with
      | nil => simp at hlen
      | cons p rest =>
          cases rest with
          | cons q rest' => simp at hlen
          | nil =>
              cases p with
              | Capstone c1 =>
                  rcases hbad with hb1 | hb2
                  · exact absurd hlen hb1
                  · exact absurd rfl (hb2 c1)
              | Flatstone c1 => rfl
              | StandingStone c1 => rfl
    · rw [if_neg hlen]

/-- Witness for `slide_flatten_standing`: a single carried White capstone
dropped onto a Black standing stone flattens it. -/
theorem slide_flatten_standing_witness :
    ∃ a', slideCell 0 1 1 [Piece.Capstone Color.White] exFlattenBoard
        (StateAnalysis.new 3) =
      some (.ok ([],
        setStack exFlattenBoard 0 1
          (Piece.Capstone Color.White :: Piece.Flatstone Color.Black :: []),
        a')) :=
  (slide_flatten_standing 0 1 1 [Piece.Capstone Color.White] exFlattenBoard
    (StateAnalysis.new 3) Color.Black [] rfl).1 Color.White rfl rfl

/-- Claim C5: when both colors have a road, `check_win` awards the road win
by ply parity — White on an odd ply count, Black on an even one. -/
theorem check_win_double_road (s : State)
    (h1 : hasRoad s.board.length s.analysis.p1_road_groups = true)
    (h2 : hasRoad s.board.length s.analysis.p2_road_groups = true) :
    (s.ply_count % 2 = 1 → s.check_win = Win.Road Color.White) ∧
    (s.ply_count % 2 ≠ 1 → s.check_win = Win.Road Color.Black) := by
  unfold State.check_win
  dsimp only
  rw [h1, h2]
  constructor
  · intro hp
    simp [hp]
  · intro hp
    simp [hp]

/-- Witness for `check_win_double_road` on a 3×3 state where both colors'
road groups span the board, after one ply. -/
theorem check_win_double_road_witness : exRoadState.check_win = Win.Road Color.White :=
  (check_win_double_road exRoadState (by decide) (by decide)).1 (by decide)

/-- Claim C7: a placement onto a non-empty cell is always rejected with
`IllegalPlacement`, and no reserve anywhere changes — the rejection carries
no state and the receiver keeps its reserves. -/
theorem place_nonempty_rejected (s : State) (x y : Nat) (piece : Piece)
    (st : List Piece) (hst : stackAt s.board x y = some st) (hne : st ≠ []) :
    s.execute_ply (.Place x y piece) = some (.error .IllegalPlacement) ∧
    (executePlyMut s (.Place x y piece)).1.p1 = s.p1 ∧
    (executePlyMut s (.Place x y piece)).1.p2 = s.p2 := by
  refine ⟨?_, rfl, rfl⟩
  unfold State.execute_ply executePlace
  dsimp only
  rw [hst]
  dsimp only
  rw [if_pos ?_]
  cases st with
  | nil => exact absurd rfl hne
  | cons p rest => rfl

/-- Witness for `place_nonempty_rejected` at the occupied cell of
`exStack3`. -/
theorem place_nonempty_rejected_witness :
    exStack3.execute_ply (.Place 0 0 (Piece.Capstone Color.Black)) =
      some (.error .IllegalPlacement) ∧
    (executePlyMut exStack3 (.Place 0 0 (Piece.Capstone Color.Black))).1.p1 =
      exStack3.p1 ∧
    (executePlyMut exStack3 (.Place 0 0 (Piece.Capstone Color.Black))).1.p2 =
      exStack3.p2 :=
  place_nonempty_rejected exStack3 0 0 (Piece.Capstone Color.Black)
    [Piece.Flatstone Color.White] rfl (by decide)

/-- Claim C9: placing a standing stone draws on the shared flatstone reserve
of the placing color's seat: on an empty cell it fails with
`InsufficientPieces` exactly when that flatstone reserve is zero, and on
success decrements that flatstone reserve, leaving the capstone reserve and
the other seat unchanged. -/
theorem standing_shares_flat_reserve (s : State) (x y : Nat) (c : Color)
    (hst : stackAt s.board x y = some []) :
    ((seatOf s c).flatstone_count = 0 →
      s.execute_ply (.Place x y (.StandingStone c)) =
        some (.error .InsufficientPieces)) ∧
    (0 < (seatOf s c).flatstone_count →
      ∃ s', s.execute_ply (.Place x y (.StandingStone c)) = some (.ok s') ∧
        (seatOf s' c).flatstone_count + 1 = (seatOf s c).flatstone_count ∧
        (seatOf s' c).capstone_count = (seatOf s c).capstone_count ∧
        seatOf s' c.flip = seatOf s c.flip) := by
  cases c with
  | White =>
      dsimp only [seatOf, Color.flip]
      constructor
      · intro hz
        unfold State.execute_ply executePlace
        dsimp only
        rw [hst]
        dsimp only
        rw [hz]
        rfl
      · intro hpos
        unfold State.execute_ply executePlace
        dsimp only
        rw [hst]
        dsimp only
        rw [if_pos hpos]
        refine ⟨_, rfl, ?_, rfl, rfl⟩
        dsimp only
        omega
  | Black =>
      dsimp only [seatOf, Color.flip]
      constructor
      · intro hz
        unfold State.execute_ply executePlace
        dsimp only
        rw [hst]
        dsimp only
        rw [hz]
        rfl
      · intro hpos
        unfold State.execute_ply executePlace
        dsimp only
        rw [hst]
        dsimp only
        rw [if_pos hpos]
        refine ⟨_, rfl, ?_, rfl, rfl⟩
        dsimp only
        omega

/-- Witness for `standing_shares_flat_reserve`: Black places a standing stone
on the fresh 3×3 board and loses one flatstone from reserve. -/
theorem standing_shares_flat_reserve_witness :
    ∃ s', newState3.execute_ply (.Place 2 2 (.StandingStone Color.Black)) =
        some (.ok s') ∧
      (seatOf s' Color.Black).flatstone_count + 1 =
        (seatOf newState3 Color.Black).flatstone_count ∧
      (seatOf s' Color.Black).capstone_count =
        (seatOf newState3 Color.Black).capstone_count ∧
      seatOf s' Color.Black.flip = seatOf newState3 Color.Black.flip :=
  (standing_shares_flat_reserve newState3 2 2 Color.Black rfl).2 (by decide)

theorem grabUsize_mod_aux : ∀ (ds : List Nat) (acc : Nat),
    ds.foldl (fun a x => (a + x) % 2 ^ 64) (acc % 2 ^ 64) =
      (ds.foldl (· + ·) acc) % 2 ^ 64 := by
  intro ds
  induction ds with
  | nil => intro acc; rfl
  | cons d ds ih =>
      intro acc
      simp only [List.foldl]
      rw [Nat.mod_add_mod]
      exact ih (acc + d)

theorem grabUsize_mod (ds : List Nat) : grabUsize ds = dropsSum ds % 2 ^ 64 := by
  have h := grabUsize_mod_aux ds 0
  simpa [grabUsize, dropsSum] using h

theorem grabUsize_eq_dropsSum (ds : List Nat) (h : dropsSum ds < 2 ^ 64) :
    grabUsize ds = dropsSum ds := by
  rw [grabUsize_mod, Nat.mod_eq_of_lt h]

theorem slideRestWrap_eq (next : State) (x y : Nat) (direction : Direction)
    (drops : List Nat) (st : List Piece) (h : dropsSum drops < 2 ^ 64) :
    slideRestWrap next x y direction drops st =
      slideRest next x y direction drops st := by
  unfold slideRestWrap slideRest
  rw [grabUsize_eq_dropsSum drops h]

theorem executeSlideWrap_eq (next : State) (x y : Nat) (direction : Direction)
    (drops : List Nat) (h : dropsSum drops < 2 ^ 64) :
    executeSlideWrap next x y direction drops =
      executeSlide next x y direction drops := by
  unfold executeSlideWrap executeSlide
  rw [grabUsize_eq_dropsSum drops h]
  cases hst : stackAt next.board x y with
  | none => rfl
  | some st =>
      dsimp only
      rw [slideRestWrap_eq next x y direction drops st h]

theorem execute_ply_wrap_eq (s : State) (p : Ply)
    (h : ∀ x y direction drops, p = .Slide x y direction drops →
      dropsSum drops < 2 ^ 64) :
    s.execute_ply_wrap p = s.execute_ply p := by
  cases p with
  | Place x y piece => rfl
  | Slide x y direction drops =>
      unfold State.execute_ply_wrap State.execute_ply
      dsimp only
      exact executeSlideWrap_eq _ x y direction drops (h x y direction drops rfl)

/-- Claim C10, counterexample: the drops list `[2^64 - 1, 2]` has a
mathematical sum far above the board size, but the `usize` fold of line 105
wraps it to a grab of `1`, so the entry validation passes and the program
panics later in the walk — it never returns `IllegalSlide`. -/
theorem slide_entry_wrap_counterexample :
    dropsSum [2 ^ 64 - 1, 2] > exStack3.board.length ∧
    grabUsize [2 ^ 64 - 1, 2] = 1 ∧
    exStack3.execute_ply_wrap (.Slide 0 0 Direction.North [2 ^ 64 - 1, 2]) =
      none := by
  refine ⟨by decide, by decide, by decide⟩

/-- Claim C10 (amended): the slide entry validation rejects with
`IllegalSlide` exactly when the code's grab count — the drops summed with
wrapping `usize` arithmetic (`grabUsize`) — exceeds the board size or the
source cell is empty; otherwise execution proceeds to the grab loop, and a
grab count within the board size but above the source stack's height is
never rejected with a `GameError` — the grab loop panics instead.  A drops
list whose mathematical sum overflows `usize` wraps at line 105, so it can
pass the entry validation and panic later rather than be rejected. -/
theorem slide_entry_validation (s : State) (x y : Nat) (direction : Direction)
    (drops : List Nat) :
    (grabUsize drops > s.board.length →
      s.execute_ply_wrap (.Slide x y direction drops) =
        some (.error .IllegalSlide)) ∧
    (∀ st, grabUsize drops ≤ s.board.length → stackAt s.board x y = some st →
      st = [] →
      s.execute_ply_wrap (.Slide x y direction drops) =
        some (.error .IllegalSlide)) ∧
    (∀ st, grabUsize drops ≤ s.board.length → stackAt s.board x y = some st →
      st ≠ [] →
      s.execute_ply_wrap (.Slide x y direction drops) =
        slideRestWrap { s with ply_count := s.ply_count + 1 } x y direction
          drops st) ∧
    (∀ st, grabUsize drops ≤ s.board.length → stackAt s.board x y = some st →
      st ≠ [] → st.length < grabUsize drops →
      s.execute_ply_wrap (.Slide x y direction drops) = none) := by
  have entry : ∀ st, grabUsize drops ≤ s.board.length →
      stackAt s.board x y = some st → st ≠ [] →
      s.execute_ply_wrap (.Slide x y direction drops) =
        slideRestWrap { s with ply_count := s.ply_count + 1 } x y direction
          drops st := by
    intro st hle hst hne
    unfold State.execute_ply_wrap executeSlideWrap
    dsimp only
    rw [if_neg (by omega)]
    rw [hst]
    cases st with
    | nil => exact absurd rfl hne
    | cons p rest => rfl
  refine ⟨?_, ?_, entry, ?_⟩
  · intro hgt
    unfold State.execute_ply_wrap executeSlideWrap
    dsimp only
    rw [if_pos hgt]
  · intro st hle hst hemp
    subst hemp
    unfold State.execute_ply_wrap executeSlideWrap
    dsimp only
    rw [if_neg (by omega)]
    rw [hst]
    rfl
  · intro st hle hst hne hlt
    rw [entry st hle hst hne]
    unfold slideRestWrap
    dsimp only
    rw [popLoop_none x y (grabUsize drops) [] st _ hlt]

/-- Witness for `slide_entry_validation`: a wrapped grab of four on a 3×3
board is rejected with `IllegalSlide`. -/
theorem slide_entry_validation_witness :
    exStack3.execute_ply_wrap (.Slide 0 0 Direction.North [4]) =
      some (.error .IllegalSlide) :=
  (slide_entry_validation exStack3 0 0 Direction.North [4]).1 (by decide)

theorem parseDrops_eq : ∀ ds : List Char,
    parseDrops ds = if ds.all Char.isDigit then some (ds.map digitVal) else none := by
  intro ds
  induction ds with
  | nil => simp [parseDrops]
  | cons c rest ih =>
      simp only [parseDrops, List.all_cons, List.map]
      by_cases hc : c.isDigit
      · rw [ih]
        by_cases hall : rest.all Char.isDigit
        · simp [hc, hall]
        · simp [hc, hall]
      · simp [hc]

theorem plyTail_isSome (color : Color) (np : Option Piece) (grab : Option Nat)
    (x y : Nat) (rest : List Char) :
    (plyTail color np grab x y rest).isSome = grammarTail np.isSome grab rest := by
  cases rest with
  | nil => cases grab <;> cases np <;> simp [plyTail, grammarTail]
  | cons c ds =>
      simp only [plyTail, grammarTail]
      cases hdir : dirOf c with
      | none => simp
      | some dir =>
          dsimp only
          rw [parseDrops_eq]
          by_cases hall : ds.all Char.isDigit
          · rw [if_pos hall]
            dsimp only
            cases np with
            | some p => simp
            | none =>
                dsimp only [Option.isSome]
                cases ds with
                | nil => simp
                | cons d ds' =>
                    dsimp only [List.map]
                    cases grab with
                    | none => simp
                    | some g =>
                        by_cases hg : g = dropsSum (digitVal d :: ds'.map digitVal)
                        · simp [hg, dropsSumChars, hall]
                        · simp [hg, dropsSumChars, hall]
          · rw [if_neg hall]
            cases ds with
            | nil => simp at hall
            | cons d ds' => simp [hall]

theorem afterGrab_isSome (color : Color) (np : Option Piece) (grab : Option Nat)
    (rem : List Char) :
    (fromPtnAfterGrab color np grab rem).isSome =
      grammarAfterGrab np.isSome grab rem := by
  cases rem with
  | nil => rfl
  | cons c2 rest2 =>
      simp only [fromPtnAfterGrab, grammarAfterGrab]
      by_cases h2 : isLowerAlpha c2
      · cases rest2 with
        | nil => simp [h2]
        | cons c3 rest3 =>
            by_cases h3 : c3.isDigit
            · simp [h2, h3, plyTail_isSome]
            · simp [h2, h3]
      · simp [h2]

theorem afterPiece_isSome (color : Color) (np : Option Piece) (rem : List Char) :
    (fromPtnAfterPiece color np rem).isSome =
      grammarAfterPiece np.isSome rem := by
  cases rem with
  | nil => rfl
  | cons c1 rest1 =>
      simp only [fromPtnAfterPiece, grammarAfterPiece]
      by_cases h1 : c1.isDigit
      · simp [h1, afterGrab_isSome]
      · simp [h1, afterGrab_isSome]

/-- The parser model and the amended grammar recognizer agree on every
character sequence.  Both use the ASCII column-letter fragment
`isLowerAlpha`, so this transfers to the source program exactly on ASCII
input (`from_ptn_matches_grammar`). -/
theorem from_ptn_grammar_model_eq : ∀ (cs : List Char) (color : Color),
    (Ply.from_ptn cs color).isSome = grammarMatches cs := by
  intro cs color
  cases cs with
  | nil => rfl
  | cons c0 rest0 =>
      simp only [Ply.from_ptn, grammarMatches]
      by_cases hS : c0 = 'S'
      · simp [hS, afterPiece_isSome]
      · by_cases hC : c0 = 'C'
        · simp [hS, hC, afterPiece_isSome]
        · by_cases hF : c0 = 'F'
          · simp [hS, hC, hF, afterPiece_isSome]
          · simp [hS, hC, hF, afterPiece_isSome]

/-- Claim C6 (amended): on ASCII input, `Ply::from_ptn` is a total function
into `Option`, returning `Some` exactly for the tokens of the spec's grammar
amended to what the code accepts — a leading `'F'` is a flatstone placement
letter, the leading grab digit may be any decimal digit including `0`, and a
piece letter together with a direction symbol is invalid — and `None` for
every other ASCII sequence.  Outside ASCII the source's Unicode column-letter
test also admits lowercase letters such as `'é'`, reading the column index
from the character's truncated low byte; the ASCII hypothesis keeps the claim
on the domain where the modelled character tests are exact. -/
theorem from_ptn_matches_grammar (cs : List Char) (color : Color)
    (_hascii : cs.all isAscii = true) :
    (Ply.from_ptn cs color).isSome = grammarMatches cs :=
  from_ptn_grammar_model_eq cs color

/-- Witness for `from_ptn_matches_grammar` at a concrete ASCII token. -/
theorem from_ptn_matches_grammar_witness :
    (['2', 'c', '2', '<', '1', '1'].all isAscii = true) ∧
    (Ply.from_ptn ['2', 'c', '2', '<', '1', '1'] Color.Black).isSome =
      grammarMatches ['2', 'c', '2', '<', '1', '1'] :=
  ⟨by decide,
    from_ptn_matches_grammar ['2', 'c', '2', '<', '1', '1'] Color.Black
      (by decide)⟩

/-- Claim C6, counterexample: three tokens on which `from_ptn` and the spec's
§4.5 grammar disagree — `Fa1` (leading `'F'`) and `0a1>` (grab digit `0`)
parse although the spec grammar rejects them, while `Sa1>` (piece letter with
a direction) does not parse although the spec grammar admits it. -/
theorem from_ptn_spec_grammar_counterexample :
    ((Ply.from_ptn ['F', 'a', '1'] Color.White).isSome = true ∧
      grammarMatchesSpec ['F', 'a', '1'] = false) ∧
    ((Ply.from_ptn ['0', 'a', '1', '>'] Color.White).isSome = true ∧
      grammarMatchesSpec ['0', 'a', '1', '>'] = false) ∧
    ((Ply.from_ptn ['S', 'a', '1', '>'] Color.White).isSome = false ∧
      grammarMatchesSpec ['S', 'a', '1', '>'] = true) := by
  decide

theorem isLowerAlpha_ne (c : Char) (h : isLowerAlpha c = true) :
    c ≠ 'S' ∧ c ≠ 'C' ∧ c ≠ 'F' := by
  refine ⟨?_, ?_, ?_⟩ <;> intro hc <;> subst hc <;> exact absurd h (by decide)

theorem isDigit_ne (c : Char) (h : c.isDigit = true) :
    c ≠ 'S' ∧ c ≠ 'C' ∧ c ≠ 'F' := by
  refine ⟨?_, ?_, ?_⟩ <;> intro hc <;> subst hc <;> exact absurd h (by decide)

theorem isLowerAlpha_not_digit (c : Char) (h : isLowerAlpha c = true) :
    c.isDigit = false := by
  simp only [isLowerAlpha, Bool.and_eq_true, decide_eq_true_eq] at h
  cases hd : c.isDigit with
  | false => rfl
  | true =>
      have hd' : '0' ≤ c ∧ c ≤ '9' := by simp [Char.isDigit] at hd; exact hd
      exact absurd (le_trans h.1 hd'.2) (by decide)

theorem from_ptn_coord (color : Color) (c2 c3 : Char) (rest : List Char)
    (h2 : isLowerAlpha c2 = true) (h3 : c3.isDigit = true) :
    Ply.from_ptn (c2 :: c3 :: rest) color =
      plyTail color none none (charU8 c2 - 97) ((charU8 c3 + 256 - 49) % 256) rest := by
  obtain ⟨hnS, hnC, hnF⟩ := isLowerAlpha_ne c2 h2
  have hnd := isLowerAlpha_not_digit c2 h2
  simp [Ply.from_ptn, fromPtnAfterPiece, fromPtnAfterGrab, hnS, hnC, hnF, hnd, h2, h3]

theorem from_ptn_grab_coord (color : Color) (cg c2 c3 : Char) (rest : List Char)
    (hg : cg.isDigit = true) (h2 : isLowerAlpha c2 = true) (h3 : c3.isDigit = true) :
    Ply.from_ptn (cg :: c2 :: c3 :: rest) color =
      plyTail color none (some (digitVal cg)) (charU8 c2 - 97)
        ((charU8 c3 + 256 - 49) % 256) rest := by
  obtain ⟨hnS, hnC, hnF⟩ := isDigit_ne cg hg
  simp [Ply.from_ptn, fromPtnAfterPiece, fromPtnAfterGrab, hnS, hnC, hnF, hg, h2, h3]

/-- Claim C8: for tokens of the shape `[grab] coord direction drops`: with no
trailing drop digits the parsed slide's drops list is the singleton grab
digit if present, else `[1]`; with trailing drop digits the digits become the
per-cell drops exactly when a leading grab digit is present and equals their
sum, and the token is otherwise rejected. -/
theorem slide_token_drops (color : Color) (c2 c3 c4 : Char) (dir : Direction)
    (ds : List Char) (h2 : isLowerAlpha c2 = true) (h3 : c3.isDigit = true)
    (h4 : dirOf c4 = some dir) :
    (ds = [] → Ply.from_ptn (c2 :: c3 :: c4 :: ds) color =
      some (.Slide (charU8 c2 - 97) ((charU8 c3 + 256 - 49) % 256) dir [1])) ∧
    (ds ≠ [] → Ply.from_ptn (c2 :: c3 :: c4 :: ds) color = none) ∧
    (∀ cg, cg.isDigit = true →
      ((ds = [] → Ply.from_ptn (cg :: c2 :: c3 :: c4 :: ds) color =
          some (.Slide (charU8 c2 - 97) ((charU8 c3 + 256 - 49) % 256) dir
            [digitVal cg])) ∧
       (ds.all Char.isDigit = true → ds ≠ [] → digitVal cg = dropsSumChars ds →
          Ply.from_ptn (cg :: c2 :: c3 :: c4 :: ds) color =
            some (.Slide (charU8 c2 - 97) ((charU8 c3 + 256 - 49) % 256) dir
              (ds.map digitVal))) ∧
       (ds.all Char.isDigit = true → ds ≠ [] → digitVal cg ≠ dropsSumChars ds →
          Ply.from_ptn (cg :: c2 :: c3 :: c4 :: ds) color = none) ∧
       (ds.all Char.isDigit = false →
          Ply.from_ptn (cg :: c2 :: c3 :: c4 :: ds) color = none))) := by
  refine ⟨?_, ?_, ?_⟩
  · intro hds
    subst hds
    rw [from_ptn_coord color c2 c3 _ h2 h3]
    simp [plyTail, h4, parseDrops]
  · intro hds
    rw [from_ptn_coord color c2 c3 _ h2 h3]
    cases ds with
    | nil => exact absurd rfl hds
    | cons d ds' =>
        simp only [plyTail]
        rw [h4]
        dsimp only
        rw [parseDrops_eq]
        by_cases hall : (d :: ds').all Char.isDigit
        · rw [if_pos hall]
          simp
        · rw [if_neg hall]
  · intro cg hcg
    refine ⟨?_, ?_, ?_, ?_⟩
    · intro hds
      subst hds
      rw [from_ptn_grab_coord color cg c2 c3 _ hcg h2 h3]
      simp [plyTail, h4, parseDrops]
    · intro hall hds hsum
      rw [from_ptn_grab_coord color cg c2 c3 _ hcg h2 h3]
      cases ds with
      | nil => exact absurd rfl hds
      | cons d ds' =>
          simp only [plyTail]
          rw [h4]
          dsimp only
          rw [parseDrops_eq, if_pos hall]
          simp only [dropsSumChars] at hsum
          simp [hsum]
    · intro hall hds hsum
      rw [from_ptn_grab_coord color cg c2 c3 _ hcg h2 h3]
      cases ds with
      | nil => exact absurd rfl hds
      | cons d ds' =>
          simp only [plyTail]
          rw [h4]
          dsimp only
          rw [parseDrops_eq, if_pos hall]
          simp only [dropsSumChars, List.map] at hsum
          simp [hsum]
    · intro hall
      rw [from_ptn_grab_coord color cg c2 c3 _ hcg h2 h3]
      cases ds with
      | nil => simp at hall
      | cons d ds' =>
          simp only [plyTail]
          rw [h4]
          dsimp only
          rw [parseDrops_eq, if_neg (by simp [hall])]

/-- Witness for `slide_token_drops`: the token `3a1>12` parses to a slide
grabbing three and dropping one then two. -/
theorem slide_token_drops_witness :
    Ply.from_ptn ['3', 'a', '1', '>', '1', '2'] Color.White =
      some (.Slide 0 0 Direction.East [1, 2]) :=
  ((slide_token_drops Color.White 'a' '1' '>' Direction.East ['1', '2']
      (by decide) (by decide) (by decide)).2.2 '3' (by decide)).2.1
    (by decide) (by decide) (by decide)

end Takkerus
